import Mathlib

/-!
Verification of the gostt-writer ESP32 firmware core: the protobuf-style
wire codec (firmware/esp32/main/proto.c), the crypto session
(firmware/esp32/main/crypto.c) and the BLE write handler
(firmware/esp32/main/ble_server.c).

Buffers are modelled as lists of naturals (each element a byte value);
machine-integer truncation is made explicit with mod two to the width.
Calls into external libraries (PSA crypto, NVS, the NimBLE stack) are
modelled as oracle parameters: the surrounding control flow is translated
from the C source, while each external call's outcome is an input.
-/

/-! ## Varint primitives (proto.c, read_varint / write_varint) -/

/-- Unbounded little-endian base-128 digits of a value, low digit first,
with the continuation bit set on all but the last digit.  Fuel-based so
that the definition is structurally recursive; fuel at least the value is
always sufficient: when the value drops below 128 the recursion stops, and
with fuel 0 the value is necessarily below 128 at every reachable call. -/
def varintBytesAux : Nat → Nat → List Nat
  | 0, v => [v % 128]
  | fuel + 1, v =>
    if v < 128 then [v]
    else (v % 128 + 128) :: varintBytesAux fuel (v / 128)

def varintBytes (v : Nat) : List Nat := varintBytesAux v v

/-- Model of read_varint (proto.c lines 6-18).  Walks the buffer
accumulating 7-bit groups into a 64-bit accumulator exactly as the C
does, reading at most 10 bytes, and returns the number of bytes consumed
together with the decoded value, or none on truncation / overlong input
(the C function returns 0 in that case). -/
def read_varint_aux : List Nat → Nat → Nat → Nat → Option (Nat × Nat)
  | [], _, _, _ => none
  | b :: rest, i, sh, acc =>
    if 10 ≤ i then none
    else
      let acc2 := (acc ||| ((b &&& 0x7F) <<< sh)) % 2 ^ 64
      if b &&& 0x80 = 0 then some (i + 1, acc2)
      else read_varint_aux rest (i + 1) (sh + 7) acc2

def read_varint (buf : List Nat) : Option (Nat × Nat) :=
  read_varint_aux buf 0 0 0

/-- Model of write_varint (proto.c lines 21-32): emits the base-128
digits of the value, checking remaining buffer capacity before each byte
(the C returns -1 when the capacity is exhausted). -/
def write_varintAux : Nat → Nat → Nat → Option (List Nat)
  | 0, _, _ => none
  | fuel + 1, cap, v =>
    if cap = 0 then none
    else if v < 128 then some [v]
    else
      match write_varintAux fuel (cap - 1) (v / 128) with
      | none => none
      | some ds => some ((v % 128 + 128) :: ds)

def write_varint (cap v : Nat) : Option (List Nat) :=
  write_varintAux (v + 1) cap v

/-! ### Varint lemmas -/

lemma varintBytesAux_congr : ∀ v f₁ f₂, v ≤ f₁ → v ≤ f₂ →
    varintBytesAux f₁ v = varintBytesAux f₂ v := by
  intro v
  induction v using Nat.strong_induction_on with
  | _ v ih =>
    intro f₁ f₂ h₁ h₂
    by_cases hv : v < 128
    · cases f₁ <;> cases f₂ <;>
        simp [varintBytesAux, hv, Nat.mod_eq_of_lt hv]
    · have hv' : 128 ≤ v := Nat.le_of_not_lt hv
      obtain ⟨g₁, rfl⟩ : ∃ g, f₁ = g + 1 :=
        ⟨f₁ - 1, by omega⟩
      obtain ⟨g₂, rfl⟩ : ∃ g, f₂ = g + 1 :=
        ⟨f₂ - 1, by omega⟩
      have hd : v / 128 < v := Nat.div_lt_self (by omega) (by omega)
      simp only [varintBytesAux, if_neg hv]
      rw [ih (v / 128) hd g₁ g₂ (by omega) (by omega)]

lemma varintBytes_of_lt {v : Nat} (h : v < 128) : varintBytes v = [v] := by
  unfold varintBytes
  cases v with
  | zero => simp [varintBytesAux]
  | succ n => simp [varintBytesAux, h]

lemma varintBytes_of_ge {v : Nat} (h : 128 ≤ v) :
    varintBytes v = (v % 128 + 128) :: varintBytes (v / 128) := by
  unfold varintBytes
  obtain ⟨g, hg⟩ : ∃ g, v = g + 1 := ⟨v - 1, by omega⟩
  rw [hg]
  simp only [varintBytesAux, if_neg (by omega : ¬ g + 1 < 128)]
  rw [← hg]
  congr 1
  exact varintBytesAux_congr (v / 128) g (v / 128) (by omega) le_rfl

lemma varintBytes_length_le : ∀ k v, v < 2 ^ (7 * k) → 0 < k →
    (varintBytes v).length ≤ k := by
  intro k
  induction k with
  | zero => omega
  | succ k ih =>
    intro v hv _
    by_cases h : v < 128
    · simp [varintBytes_of_lt h]
    · rw [varintBytes_of_ge (by omega)]
      have hk : 0 < k := by
        by_contra hk0
        have : k = 0 := by omega
        subst this
        simp [pow_succ, pow_zero] at hv
        omega
      have : v / 128 < 2 ^ (7 * k) := by
        have hpow : (2 : Nat) ^ (7 * (k + 1)) = 2 ^ (7 * k) * 128 := by ring
        exact Nat.div_lt_of_lt_mul (by omega)
      simp only [List.length_cons]
      have := ih (v / 128) this hk
      omega

lemma read_varint_aux_bounds : ∀ buf i sh acc n v,
    read_varint_aux buf i sh acc = some (n, v) → i < n ∧ n ≤ i + buf.length := by
  intro buf
  induction buf with
  | nil => intro i sh acc n v h; simp [read_varint_aux] at h
  | cons b rest ih =>
    intro i sh acc n v h
    simp only [read_varint_aux] at h
    split at h
    · exact absurd h (by simp)
    · split at h
      · obtain ⟨h1, h2⟩ := Prod.mk.injEq .. ▸ Option.some.inj h
        simp only [List.length_cons]
        omega
      · have := ih _ _ _ _ _ h
        simp only [List.length_cons]
        omega

lemma read_varint_bounds {buf : List Nat} {n v : Nat}
    (h : read_varint buf = some (n, v)) : 1 ≤ n ∧ n ≤ buf.length := by
  have := read_varint_aux_bounds buf 0 0 0 n v h
  omega

lemma or_mod_two_pow_left (x y k : Nat) :
    ((x % 2 ^ k) ||| y) % 2 ^ k = (x ||| y) % 2 ^ k := by
  apply Nat.eq_of_testBit_eq
  intro j
  simp only [Nat.testBit_mod_two_pow, Nat.testBit_or]
  by_cases hj : j < k <;> simp [hj]

lemma shift_split_or (a s : Nat) :
    ((a % 128) <<< s) ||| ((a / 128) <<< (s + 7)) = a <<< s := by
  have h : (128 : Nat) = 2 ^ 7 := by norm_num
  rw [h]
  apply Nat.eq_of_testBit_eq
  intro j
  rw [← Nat.shiftRight_eq_div_pow]
  simp only [Nat.testBit_or, Nat.testBit_shiftLeft, Nat.testBit_mod_two_pow,
    Nat.testBit_shiftRight]
  by_cases h1 : s ≤ j
  · by_cases h2 : s + 7 ≤ j
    · have e1 : ¬ j - s < 7 := by omega
      have e2 : 7 + (j - (s + 7)) = j - s := by omega
      simp [h1, h2, e1, e2]
    · have e1 : j - s < 7 := by omega
      simp [h1, h2, e1]
  · have h2 : ¬ s + 7 ≤ j := by omega
    simp [h1, h2]

lemma read_varint_aux_varint : ∀ v rest i acc,
    i + (varintBytes v).length ≤ 10 →
    read_varint_aux (varintBytes v ++ rest) i (7 * i) acc
      = some (i + (varintBytes v).length, (acc ||| v <<< (7 * i)) % 2 ^ 64) := by
  intro v
  induction v using Nat.strong_induction_on with
  | _ v ih =>
    intro rest i acc hlen
    by_cases hv : v < 128
    · rw [varintBytes_of_lt hv] at hlen ⊢
      simp only [List.length_cons, List.length_nil] at hlen
      simp only [List.cons_append, List.nil_append, read_varint_aux]
      have hi : ¬ 10 ≤ i := by omega
      have hlow : v &&& 0x7F = v := by
        have h := Nat.and_pow_two_sub_one_eq_mod v 7
        norm_num at h
        rwa [Nat.mod_eq_of_lt hv] at h
      have hcont : v &&& 0x80 = 0 := by
        have : v &&& 2 ^ 7 = (v.testBit 7).toNat * 2 ^ 7 := Nat.and_two_pow v 7
        rw [Nat.testBit_lt_two_pow (show v < 2 ^ 7 by omega)] at this
        simpa using this
      simp [hi, hcont, hlow, List.length_cons]
    · have h128 : 128 ≤ v := by omega
      rw [varintBytes_of_ge h128] at hlen ⊢
      simp only [List.length_cons] at hlen
      simp only [List.cons_append, read_varint_aux]
      have hi : ¬ 10 ≤ i := by omega
      have hb7 : (v % 128 + 128) &&& 0x7F = v % 128 := by
        have : (v % 128 + 128) &&& 2 ^ 7 - 1 = (v % 128 + 128) % 2 ^ 7 :=
          Nat.and_pow_two_sub_one_eq_mod _ 7
        have hmod : (v % 128 + 128) % 128 = v % 128 := by omega
        simpa [hmod] using this
      have hcont : ¬ (v % 128 + 128) &&& 0x80 = 0 := by
        have : (v % 128 + 128) &&& 2 ^ 7
            = ((v % 128 + 128).testBit 7).toNat * 2 ^ 7 := Nat.and_two_pow _ 7
        have htb : (v % 128 + 128).testBit 7 = true := by
          rw [Nat.testBit_to_div_mod]
          have : (v % 128 + 128) / 2 ^ 7 = 1 := by omega
          simp [this]
        rw [htb] at this
        simp only [Bool.toNat_true, one_mul] at this
        norm_num at this
        omega
      have hd : v / 128 < v := Nat.div_lt_self (by omega) (by omega)
      have hrec := ih (v / 128) hd rest (i + 1)
        ((acc ||| ((v % 128) <<< (7 * i))) % 2 ^ 64) (by omega)
      have h7 : 7 * (i + 1) = 7 * i + 7 := by ring
      rw [h7] at hrec
      rw [if_neg hi]
      simp only [hb7, if_neg hcont, List.append_eq]
      rw [hrec]
      have hn : i + 1 + (varintBytes (v / 128)).length
          = i + ((varintBytes (v / 128)).length + 1) := by omega
      have hval : (((acc ||| (v % 128) <<< (7 * i)) % 2 ^ 64
            ||| (v / 128) <<< (7 * i + 7)) % 2 ^ 64)
          = (acc ||| v <<< (7 * i)) % 2 ^ 64 := by
        rw [or_mod_two_pow_left, Nat.or_assoc, shift_split_or]
      rw [hn, hval]
      simp [List.length_cons]

/-- Round trip used throughout: reading a varint from a buffer that starts
with the encoding of a value below two to the 64 yields that value and
consumes exactly its digits. -/
lemma read_varint_varintBytes {v : Nat} (hv : v < 2 ^ 64) (rest : List Nat) :
    read_varint (varintBytes v ++ rest) = some ((varintBytes v).length, v) := by
  have hlen : (varintBytes v).length ≤ 10 :=
    varintBytes_length_le 10 v (by calc v < 2 ^ 64 := hv
                                  _ ≤ 2 ^ (7 * 10) := by norm_num) (by norm_num)
  have h := read_varint_aux_varint v rest 0 0 (by omega)
  simp only [Nat.mul_zero, Nat.zero_add] at h
  rw [read_varint, h]
  have h0 : ((0 : Nat) ||| v <<< 0) % 2 ^ 64 = v := by
    have hz : (0 : Nat) ||| v <<< 0 = v := by simp [Nat.shiftLeft_eq]
    rw [hz]
    exact Nat.mod_eq_of_lt hv
  rw [h0]

lemma write_varintAux_some : ∀ fuel cap v ds,
    write_varintAux fuel cap v = some ds → ds = varintBytes v := by
  intro fuel
  induction fuel with
  | zero => intro cap v ds h; simp [write_varintAux] at h
  | succ fuel ih =>
    intro cap v ds h
    simp only [write_varintAux] at h
    split at h
    · exact absurd h (by simp)
    · split at h
      · next hlt =>
        obtain rfl := Option.some.inj h
        rw [varintBytes_of_lt hlt]
      · next hge =>
        rcases hm : write_varintAux fuel (cap - 1) (v / 128) with _ | ds'
        · rw [hm] at h; exact absurd h (by simp)
        · rw [hm] at h
          obtain rfl := Option.some.inj h
          rw [varintBytes_of_ge (by omega), ih _ _ _ hm]

/-- Relation between the capacity-checked writer and the pure digit list:
when write_varint succeeds it produced exactly the varint digits. -/
lemma write_varint_some {cap v : Nat} {ds : List Nat}
    (h : write_varint cap v = some ds) : ds = varintBytes v :=
  write_varintAux_some _ _ _ _ h

/-! ## Generic field-decode loop (proto.c decode loop shared by
gostt_decode_data_packet, gostt_decode_keyboard_packet and
gostt_decode_encrypted_data; lines 34-165)

The three C decoders have literally the same while loop and differ only
in how a decoded field updates the output struct, so the loop is defined
once, parameterised by the two update actions: aV for a wire-type-0
(varint) field and aB for a wire-type-2 (length-delimited) field; aB may
fail, which models the fixed-length checks on iv and tag.  The C checks
field_len against both the total length and the remaining length; over
Nat the pair is equivalent to the single check against the remaining
buffer used here.  Fuel is the initial buffer length; every loop
iteration consumes at least one byte, so this fuel is always enough. -/

def decodeFields {σ : Type} (aV : σ → Nat → Nat → σ)
    (aB : σ → Nat → List Nat → Option σ) :
    Nat → List Nat → σ → Option σ
  | _, [], s => some s
  | 0, _ :: _, _ => none
  | fuel + 1, b :: bs, s =>
    match read_varint (b :: bs) with
    | none => none
    | some (n, tagv) =>
      let rest := (b :: bs).drop n
      let fieldNum := (tagv >>> 3) % 2 ^ 32
      let wireType := tagv &&& 7
      if wireType = 0 then
        match read_varint rest with
        | none => none
        | some (m, v) =>
          decodeFields aV aB fuel (rest.drop m) (aV s fieldNum v)
      else if wireType = 2 then
        match read_varint rest with
        | none => none
        | some (m, flen) =>
          let rest2 := rest.drop m
          if rest2.length < flen then none
          else
            match aB s fieldNum (rest2.take flen) with
            | none => none
            | some s2 => decodeFields aV aB fuel (rest2.drop flen) s2
      else none

def decodeRun {σ : Type} (aV : σ → Nat → Nat → σ)
    (aB : σ → Nat → List Nat → Option σ) (buf : List Nat) (s : σ) : Option σ :=
  decodeFields aV aB buf.length buf s

lemma decodeFields_congr {σ : Type} (aV : σ → Nat → Nat → σ)
    (aB : σ → Nat → List Nat → Option σ) :
    ∀ (L : Nat) (buf : List Nat), buf.length ≤ L →
      ∀ f₁ f₂ s, buf.length ≤ f₁ → buf.length ≤ f₂ →
        decodeFields aV aB f₁ buf s = decodeFields aV aB f₂ buf s := by
  intro L
  induction L with
  | zero =>
    intro buf hL f₁ f₂ s _ _
    have : buf = [] := List.length_eq_zero.mp (by omega)
    subst this
    cases f₁ <;> cases f₂ <;> simp [decodeFields]
  | succ L ih =>
    intro buf hL f₁ f₂ s h₁ h₂
    cases buf with
    | nil => cases f₁ <;> cases f₂ <;> simp [decodeFields]
    | cons b bs =>
      have hlen : (b :: bs).length = bs.length + 1 := by simp
      obtain ⟨g₁, rfl⟩ : ∃ g, f₁ = g + 1 := ⟨f₁ - 1, by omega⟩
      obtain ⟨g₂, rfl⟩ : ∃ g, f₂ = g + 1 := ⟨f₂ - 1, by omega⟩
      simp only [decodeFields]
      cases hrv : read_varint (b :: bs) with
      | none => rfl
      | some nt =>
        obtain ⟨n, tagv⟩ := nt
        have hn := read_varint_bounds hrv
        simp only []
        split
        · -- wire type 0
          cases hrv2 : read_varint ((b :: bs).drop n) with
          | none => rfl
          | some mv =>
            obtain ⟨m, v⟩ := mv
            have hm := read_varint_aux_bounds _ 0 0 0 _ _ hrv2
            have hdl : ((b :: bs).drop n).length = bs.length + 1 - n := by
              simp [List.length_drop]
            apply ih
            · simp only [List.length_drop]
              omega
            · simp only [List.length_drop]
              omega
            · simp only [List.length_drop]
              omega
        · split
          · -- wire type 2
            cases hrv2 : read_varint ((b :: bs).drop n) with
            | none => rfl
            | some mv =>
              obtain ⟨m, flen⟩ := mv
              have hm := read_varint_aux_bounds _ 0 0 0 _ _ hrv2
              simp only []
              split
              · rfl
              · cases haB : aB s ((tagv >>> 3) % 2 ^ 32)
                    ((((b :: bs).drop n).drop m).take flen) with
                | none => rfl
                | some s2 =>
                  apply ih
                  · simp only [List.length_drop]
                    omega
                  · simp only [List.length_drop]
                    omega
                  · simp only [List.length_drop]
                    omega
          · rfl

lemma decodeRun_fuel {σ : Type} (aV : σ → Nat → Nat → σ)
    (aB : σ → Nat → List Nat → Option σ) {fuel : Nat} {buf : List Nat} (s : σ)
    (h : buf.length ≤ fuel) :
    decodeFields aV aB fuel buf s = decodeRun aV aB buf s :=
  decodeFields_congr aV aB buf.length buf le_rfl fuel buf.length s h le_rfl

/-! ## Message structures (proto.h) -/

/-- DataPacket (proto.h lines 10-16).  The C holds iv and tag as fixed
arrays zero-filled by memset, encrypted_data as a borrowed pointer (NULL
with length 0 when the field is absent, modelled as the empty list), and
packet_num as a uint32. -/
structure DataPacket where
  iv : List Nat
  tag : List Nat
  encrypted_data : List Nat
  packet_num : Nat
deriving DecidableEq

def dataPacketInit : DataPacket :=
  ⟨List.replicate 12 0, List.replicate 16 0, [], 0⟩

/-- Field update for a varint field of DataPacket (proto.c line 53):
only field 4 is stored, truncated to uint32. -/
def dataApplyV (s : DataPacket) (num v : Nat) : DataPacket :=
  if num = 4 then { s with packet_num := v % 2 ^ 32 } else s

/-- Field update for a length-delimited field of DataPacket (proto.c
lines 61-74): field 1 must be exactly 12 bytes, field 2 exactly 16,
field 3 is stored as-is, other numbers are skipped. -/
def dataApplyB (s : DataPacket) (num : Nat) (payload : List Nat) :
    Option DataPacket :=
  if num = 1 then
    (if payload.length = 12 then some { s with iv := payload } else none)
  else if num = 2 then
    (if payload.length = 16 then some { s with tag := payload } else none)
  else if num = 3 then some { s with encrypted_data := payload }
  else some s

def gostt_decode_data_packet (buf : List Nat) : Option DataPacket :=
  decodeRun dataApplyV dataApplyB buf dataPacketInit

/-- KeyboardPacket (proto.h lines 19-23).  The message pointer is NULL
after memset and set only when field 1 occurs, so it is an Option. -/
structure KeyboardPacket where
  message : Option (List Nat)
  length : Nat
deriving DecidableEq

def keyboardPacketInit : KeyboardPacket := ⟨none, 0⟩

def kbdApplyV (s : KeyboardPacket) (num v : Nat) : KeyboardPacket :=
  if num = 2 then { s with length := v % 2 ^ 32 } else s

def kbdApplyB (s : KeyboardPacket) (num : Nat) (payload : List Nat) :
    Option KeyboardPacket :=
  if num = 1 then some { s with message := some payload } else some s

def gostt_decode_keyboard_packet (buf : List Nat) : Option KeyboardPacket :=
  decodeRun kbdApplyV kbdApplyB buf keyboardPacketInit

/-- EncryptedData (proto.h lines 27-33).  keyboard_packet_data is a
NULL-initialised pointer tested against NULL by the dispatcher, so it is
an Option; command_data is only ever passed through with its length. -/
structure EncryptedData where
  keyboard_packet_data : Option (List Nat)
  command_type : Nat
  command_data : List Nat
deriving DecidableEq

def encryptedDataInit : EncryptedData := ⟨none, 0, []⟩

def encApplyV (s : EncryptedData) (num v : Nat) : EncryptedData :=
  if num = 2 then { s with command_type := v % 2 ^ 32 } else s

def encApplyB (s : EncryptedData) (num : Nat) (payload : List Nat) :
    Option EncryptedData :=
  if num = 1 then some { s with keyboard_packet_data := some payload }
  else if num = 3 then some { s with command_data := payload }
  else some s

def gostt_decode_encrypted_data (buf : List Nat) : Option EncryptedData :=
  decodeRun encApplyV encApplyB buf encryptedDataInit

/-! ## Encoder (proto.c gostt_encode_response_packet, lines 167-201) -/

/-- Model of gostt_encode_response_packet.  The C writes the field-1 tag
byte 0x08, the type varint, the field-2 tag byte 0x10, the peer-status
varint, and, only when the payload pointer is non-NULL with nonzero
length, the field-3 tag byte 0x1a, a length varint and the payload bytes,
each step checked against the remaining capacity.  A NULL data pointer is
modelled as none.  The C returns the number of bytes written; here the
written bytes themselves are returned (their count is the C result). -/
def gostt_encode_response_packet (bufLen ty st : Nat)
    (data : Option (List Nat)) : Option (List Nat) :=
  if bufLen = 0 then none
  else
    match write_varint (bufLen - 1) ty with
    | none => none
    | some tyB =>
      let pos1 := 1 + tyB.length
      if bufLen ≤ pos1 then none
      else
        match write_varint (bufLen - pos1 - 1) st with
        | none => none
        | some stB =>
          let pos2 := pos1 + 1 + stB.length
          let base := 0x08 :: tyB ++ 0x10 :: stB
          match data with
          | some d =>
            if 0 < d.length then
              if bufLen ≤ pos2 then none
              else
                match write_varint (bufLen - pos2 - 1) d.length with
                | none => none
                | some lenB =>
                  let pos3 := pos2 + 1 + lenB.length
                  if bufLen < pos3 + d.length then none
                  else some (base ++ 0x1a :: lenB ++ d)
            else some base
          | none => some base

/-! ### Concrete test vectors (spec section 8 and test_proto.c) -/

def kbdHelloVec : List Nat := [0x0a, 0x05, 0x68, 0x65, 0x6c, 0x6c, 0x6f, 0x10, 0x05]

def kbdEmptyVec : List Nat := [0x0a, 0x00, 0x10, 0x00]

def dataPacketVec : List Nat :=
  [0x0a, 0x0c,
   0xAA, 0x00, 0x00, 0x00, 0x00, 0x00, 0x00, 0x00, 0x00, 0x00, 0x00, 0x00,
   0x12, 0x10,
   0xBB, 0x00, 0x00, 0x00, 0x00, 0x00, 0x00, 0x00,
   0x00, 0x00, 0x00, 0x00, 0x00, 0x00, 0x00, 0x00,
   0x1a, 0x03,
   0x01, 0x02, 0x03,
   0x20, 0x2a]

def encDataVec : List Nat := [0x0a, 0x09] ++ kbdHelloVec

example : gostt_decode_keyboard_packet kbdHelloVec
    = some ⟨some [0x68, 0x65, 0x6c, 0x6c, 0x6f], 5⟩ := by decide

example : gostt_decode_keyboard_packet kbdEmptyVec = some ⟨some [], 0⟩ := by decide

example : gostt_decode_data_packet dataPacketVec
    = some ⟨0xAA :: List.replicate 11 0, 0xBB :: List.replicate 15 0,
        [1, 2, 3], 42⟩ := by decide

example : gostt_decode_encrypted_data encDataVec
    = some ⟨some kbdHelloVec, 0, []⟩ := by decide

example : gostt_encode_response_packet 64 1 0 (some [0xDE, 0xAD])
    = some [0x08, 0x01, 0x10, 0x00, 0x1a, 0x02, 0xDE, 0xAD] := by decide

example : gostt_encode_response_packet 16 0 0 none
    = some [0x08, 0x00, 0x10, 0x00] := by decide

/-! ## Abstract wire fields

A single encoded field: either a varint field (wire type 0) or a
length-delimited field (wire type 2), as produced by any protobuf writer
targeting this decoder.  Used to state order-independence, skipping of
unknown field numbers and the fixed-length checks. -/

inductive WireField where
  | varintF (num val : Nat)
  | bytesF (num : Nat) (payload : List Nat)
deriving DecidableEq

def wfNum : WireField → Nat
  | .varintF n _ => n
  | .bytesF n _ => n

/-- Well-formed field: field number fits a uint32 (so the decoder's
truncated field number is the number itself) and values fit a uint64. -/
def fieldWF : WireField → Prop
  | .varintF n v => n < 2 ^ 32 ∧ v < 2 ^ 64
  | .bytesF n p => n < 2 ^ 32 ∧ p.length < 2 ^ 64

instance : DecidablePred fieldWF := by
  intro f
  cases f <;> (dsimp [fieldWF]; infer_instance)

def encodeField : WireField → List Nat
  | .varintF n v => varintBytes (n * 8) ++ varintBytes v
  | .bytesF n p => varintBytes (n * 8 + 2) ++ varintBytes p.length ++ p

def applyField {σ : Type} (aV : σ → Nat → Nat → σ)
    (aB : σ → Nat → List Nat → Option σ) (s : σ) : WireField → Option σ
  | .varintF n v => some (aV s n v)
  | .bytesF n p => aB s n p

def stepField {σ : Type} (aV : σ → Nat → Nat → σ)
    (aB : σ → Nat → List Nat → Option σ) (os : Option σ) (fld : WireField) :
    Option σ :=
  os.bind fun s => applyField aV aB s fld

def encFields (fs : List WireField) : List Nat := (fs.map encodeField).flatten

lemma varintBytes_ne_nil (v : Nat) : varintBytes v ≠ [] := by
  by_cases h : v < 128
  · simp [varintBytes_of_lt h]
  · rw [varintBytes_of_ge (Nat.le_of_not_lt h)]
    simp

/-- Unfolding of the decode loop through decodeRun on a nonempty buffer,
with the recursive occurrences re-expressed through decodeRun. -/
lemma decodeRun_ne_nil {σ : Type} (aV : σ → Nat → Nat → σ)
    (aB : σ → Nat → List Nat → Option σ) (buf : List Nat) (hne : buf ≠ [])
    (s : σ) :
    decodeRun aV aB buf s =
      match read_varint buf with
      | none => none
      | some (n, tagv) =>
        if tagv &&& 7 = 0 then
          match read_varint (buf.drop n) with
          | none => none
          | some (m, v) =>
            decodeRun aV aB ((buf.drop n).drop m)
              (aV s ((tagv >>> 3) % 2 ^ 32) v)
        else if tagv &&& 7 = 2 then
          match read_varint (buf.drop n) with
          | none => none
          | some (m, flen) =>
            if ((buf.drop n).drop m).length < flen then none
            else
              match aB s ((tagv >>> 3) % 2 ^ 32)
                  (((buf.drop n).drop m).take flen) with
              | none => none
              | some s2 => decodeRun aV aB (((buf.drop n).drop m).drop flen) s2
        else none := by
  obtain ⟨b, bs, rfl⟩ := List.exists_cons_of_ne_nil hne
  show decodeFields aV aB (b :: bs).length (b :: bs) s = _
  have hlen : (b :: bs).length = bs.length + 1 := by simp
  rw [hlen]
  simp only [decodeFields]
  cases hrv : read_varint (b :: bs) with
  | none => rfl
  | some nt =>
    obtain ⟨n, tagv⟩ := nt
    have hn := read_varint_bounds hrv
    simp only []
    split
    · cases hrv2 : read_varint ((b :: bs).drop n) with
      | none => rfl
      | some mv =>
        obtain ⟨m, v⟩ := mv
        have hm := read_varint_aux_bounds _ 0 0 0 _ _ hrv2
        exact decodeRun_fuel aV aB _ (by simp only [List.length_drop]; omega)
    · split
      · cases hrv2 : read_varint ((b :: bs).drop n) with
        | none => rfl
        | some mv =>
          obtain ⟨m, flen⟩ := mv
          have hm := read_varint_aux_bounds _ 0 0 0 _ _ hrv2
          simp only []
          split
          · rfl
          · cases haB : aB s ((tagv >>> 3) % 2 ^ 32)
                ((((b :: bs).drop n).drop m).take flen) with
            | none => rfl
            | some s2 =>
              exact decodeRun_fuel aV aB _
                (by simp only [List.length_drop]; omega)
      · rfl

lemma and7_eq_mod (x : Nat) : x &&& 7 = x % 8 := by
  have h := Nat.and_pow_two_sub_one_eq_mod x 3
  norm_num at h
  exact h

lemma shr3_eq_div (x : Nat) : x >>> 3 = x / 8 := by
  rw [Nat.shiftRight_eq_div_pow]

lemma foldl_stepField_none {σ : Type} (aV : σ → Nat → Nat → σ)
    (aB : σ → Nat → List Nat → Option σ) :
    ∀ gs : List WireField, List.foldl (stepField aV aB) none gs = none := by
  intro gs
  induction gs with
  | nil => rfl
  | cons g gs ih =>
    simp only [List.foldl_cons]
    rw [show stepField aV aB none g = none from rfl]
    exact ih

/-- Decoding a buffer that starts with one well-formed encoded field
applies that field's action and continues with the remainder. -/
lemma decodeRun_cons_field {σ : Type} (aV : σ → Nat → Nat → σ)
    (aB : σ → Nat → List Nat → Option σ) (fld : WireField)
    (hwf : fieldWF fld) (rest : List Nat) (s : σ) :
    decodeRun aV aB (encodeField fld ++ rest) s
      = (applyField aV aB s fld).bind fun s2 => decodeRun aV aB rest s2 := by
  cases fld with
  | varintF n v =>
    obtain ⟨hn32, hv64⟩ := hwf
    have htag64 : n * 8 < 2 ^ 64 := by
      have : (2 : Nat) ^ 32 * 8 ≤ 2 ^ 64 := by norm_num
      omega
    have hne : encodeField (WireField.varintF n v) ++ rest ≠ [] := by
      cases hvb : varintBytes (n * 8) with
      | nil => exact absurd hvb (varintBytes_ne_nil (n * 8))
      | cons a as => simp [encodeField, hvb]
    have hwt : (n * 8) &&& 7 = 0 := by rw [and7_eq_mod]; omega
    have hnum : ((n * 8) >>> 3) % 2 ^ 32 = n := by
      rw [shr3_eq_div]
      have h8 : n * 8 / 8 = n := by omega
      rw [h8, Nat.mod_eq_of_lt hn32]
    have hshape : encodeField (WireField.varintF n v) ++ rest
        = varintBytes (n * 8) ++ (varintBytes v ++ rest) := by
      simp [encodeField, List.append_assoc]
    rw [decodeRun_ne_nil aV aB _ hne s, hshape,
      read_varint_varintBytes htag64]
    dsimp only []
    rw [List.drop_left, if_pos hwt, read_varint_varintBytes hv64]
    dsimp only []
    rw [List.drop_left, hnum]
    rfl
  | bytesF n p =>
    obtain ⟨hn32, hp64⟩ := hwf
    have htag64 : n * 8 + 2 < 2 ^ 64 := by
      have : (2 : Nat) ^ 32 * 8 + 2 ≤ 2 ^ 64 := by norm_num
      omega
    have hne : encodeField (WireField.bytesF n p) ++ rest ≠ [] := by
      cases hvb : varintBytes (n * 8 + 2) with
      | nil => exact absurd hvb (varintBytes_ne_nil (n * 8 + 2))
      | cons a as => simp [encodeField, hvb]
    have hwt0 : ¬ (n * 8 + 2) &&& 7 = 0 := by rw [and7_eq_mod]; omega
    have hwt2 : (n * 8 + 2) &&& 7 = 2 := by rw [and7_eq_mod]; omega
    have hnum : ((n * 8 + 2) >>> 3) % 2 ^ 32 = n := by
      rw [shr3_eq_div]
      have h8 : (n * 8 + 2) / 8 = n := by omega
      rw [h8, Nat.mod_eq_of_lt hn32]
    have hshape : encodeField (WireField.bytesF n p) ++ rest
        = varintBytes (n * 8 + 2) ++ (varintBytes p.length ++ (p ++ rest)) := by
      simp [encodeField, List.append_assoc]
    rw [decodeRun_ne_nil aV aB _ hne s, hshape,
      read_varint_varintBytes htag64]
    dsimp only []
    rw [List.drop_left, if_neg hwt0, if_pos hwt2,
      read_varint_varintBytes hp64]
    dsimp only []
    rw [List.drop_left]
    have hnotlt : ¬ (p ++ rest).length < p.length := by
      simp [List.length_append]
    rw [if_neg hnotlt, List.take_left, List.drop_left, hnum]
    cases haB : aB s n p with
    | none => simp [applyField, haB]
    | some s2 => simp [applyField, haB]

/-- Decoding the concatenation of well-formed encoded fields folds their
actions from the initial state and continues with the remainder. -/
lemma decodeRun_encFields {σ : Type} (aV : σ → Nat → Nat → σ)
    (aB : σ → Nat → List Nat → Option σ) :
    ∀ (fs : List WireField), (∀ fld ∈ fs, fieldWF fld) →
      ∀ (rest : List Nat) (s : σ),
        decodeRun aV aB (encFields fs ++ rest) s
          = (fs.foldl (stepField aV aB) (some s)).bind
              fun s2 => decodeRun aV aB rest s2 := by
  intro fs
  induction fs with
  | nil => intro _ rest s; simp [encFields, stepField]
  | cons fld fs ih =>
    intro hwf rest s
    have h1 : encFields (fld :: fs) = encodeField fld ++ encFields fs := by
      simp [encFields]
    rw [h1, List.append_assoc,
      decodeRun_cons_field aV aB fld (hwf fld (by simp)) _ s]
    have hstep : stepField aV aB (some s) fld = applyField aV aB s fld := rfl
    cases happ : applyField aV aB s fld with
    | none =>
      simp only [List.foldl_cons, hstep, happ, Option.none_bind,
        foldl_stepField_none]
    | some s2 =>
      simp only [Option.some_bind]
      rw [ih (by intro x hx; exact hwf x (List.mem_cons_of_mem _ hx)) rest s2]
      simp only [List.foldl_cons, hstep, happ]

/-! ## Crypto session (crypto.c)

The session state is the C struct gostt_crypto_ctx_t (crypto.h lines
11-15).  The persistent NVS namespace holds the three keys the firmware
uses (config.h lines 26-28).  PSA and NVS calls are oracles in the
environment structures below; the control flow around them is translated
from crypto.c. -/

structure CryptoCtx where
  aes_key : List Nat
  has_key : Bool
  peer_pubkey : List Nat
deriving DecidableEq

def cryptoCtxZero : CryptoCtx :=
  ⟨List.replicate 32 0, false, List.replicate 33 0⟩

structure NvsStore where
  aes : Option (List Nat)
  peer_pub : Option (List Nat)
  mute_cfg : Option (List Nat)
deriving DecidableEq

/-- Oracle outcomes for the external calls made by gostt_crypto_pair:
PSA key generation, public-key export, mbedtls point compression, peer
point decompression (none models an invalid or off-curve point), the raw
ECDH agreement, and the HKDF-SHA256 derivation, which the C performs in
two stages with different failure behaviour.  hkdf_pre_ok covers the ikm
import, setup, salt, secret and info steps (crypto.c lines 211-260),
whose failures jump to cleanup before anything is written.
hkdf_output is the final psa_key_derivation_output_bytes call (line
263), whose output buffer is ctx->aes_key itself: on success it holds
the derived key, on failure its contents are whatever the library left
there (unspecified per the PSA contract; the mbedtls implementation the
firmware targets fills the buffer with 0x21 bytes on every error exit),
modelled by the hkdf_fail_fill oracle.  The nvs flags are the NVS
open/write outcomes used by save_key_to_nvs. -/
structure PairEnv where
  gen_ok : Bool
  export_ok : Bool
  own_uncompressed : List Nat
  compress : List Nat → Option (List Nat)
  decompress : List Nat → Option (List Nat)
  ecdh : Option (List Nat)
  hkdf_pre_ok : Bool
  hkdf_output : List Nat → Option (List Nat)
  hkdf_fail_fill : List Nat
  nvs_open_ok : Bool
  nvs_set_aes_ok : Bool
  nvs_set_peer_ok : Bool

/-- Model of save_key_to_nvs (crypto.c lines 51-77): open, write the AES
key (failure aborts with -1), write the peer pubkey (failure is only a
warning), commit. -/
def save_key_to_nvs (env : PairEnv) (ctx : CryptoCtx) (peer : List Nat)
    (store : NvsStore) : Int × NvsStore :=
  if ¬ env.nvs_open_ok then (-1, store)
  else if ¬ env.nvs_set_aes_ok then (-1, store)
  else
    let store1 := { store with aes := some ctx.aes_key }
    if env.nvs_set_peer_ok then (0, { store1 with peer_pub := some peer })
    else (0, store1)

/-- Model of gostt_crypto_pair (crypto.c lines 152-290).  Returns the C
return code, the bytes written to own_pubkey_out (none when control never
reached the compression step), and the session / store after the call.
Failures at generation, export, compression, peer decompression, ECDH or
the pre-output HKDF steps all jump to cleanup before ctx or NVS are
touched.  The final derivation step writes directly into ctx->aes_key:
on its failure the call still jumps to cleanup with has_key and
peer_pubkey untouched and nothing persisted, but aes_key now holds the
library's failure fill.  Only after a fully successful derivation are
has_key and peer_pubkey assigned and the keys persisted, persistence
failure being non-fatal. -/
def gostt_crypto_pair (env : PairEnv) (ctx : CryptoCtx) (peer : List Nat)
    (store : NvsStore) : Int × Option (List Nat) × CryptoCtx × NvsStore :=
  if ¬ env.gen_ok then (-1, none, ctx, store)
  else if ¬ env.export_ok then (-1, none, ctx, store)
  else
    match env.compress env.own_uncompressed with
    | none => (-1, none, ctx, store)
    | some own =>
      match env.decompress peer with
      | none => (-1, some own, ctx, store)
      | some _peer_unc =>
        match env.ecdh with
        | none => (-1, some own, ctx, store)
        | some secret =>
          if ¬ env.hkdf_pre_ok then (-1, some own, ctx, store)
          else
            match env.hkdf_output secret with
            | none =>
              (-1, some own, { ctx with aes_key := env.hkdf_fail_fill }, store)
            | some key =>
              let ctx2 : CryptoCtx := ⟨key, true, peer⟩
              let store2 := (save_key_to_nvs env ctx2 peer store).2
              (0, some own, ctx2, store2)

/-- Oracle outcomes for gostt_crypto_decrypt's external calls: PSA key
import, the malloc of the combined buffer, and the AEAD decryption
itself, taking the AES key, the IV and the concatenated
ciphertext-plus-tag exactly as psa_aead_decrypt receives them. -/
structure DecryptEnv where
  import_ok : Bool
  alloc_ok : Bool
  aead : List Nat → List Nat → List Nat → Option (List Nat)

def INT_MAX : Nat := 2 ^ 31 - 1

/-- Model of gostt_crypto_decrypt (crypto.c lines 292-349): requires a
key, rejects empty or oversize ciphertext before any PSA call, then
imports the key, builds ciphertext plus tag and calls the AEAD oracle.
Returns the C return code (plaintext length or -1) paired with the
plaintext when successful. -/
def gostt_crypto_decrypt (env : DecryptEnv) (ctx : CryptoCtx)
    (iv tag ct : List Nat) : Int × Option (List Nat) :=
  if ¬ ctx.has_key then (-1, none)
  else if ct.length = 0 ∨ INT_MAX < ct.length then (-1, none)
  else if ¬ env.import_ok then (-1, none)
  else if ¬ env.alloc_ok then (-1, none)
  else
    match env.aead ctx.aes_key iv (ct ++ tag) with
    | none => (-1, none)
    | some pt => ((pt.length : Int), some pt)

/-- Model of gostt_crypto_erase (crypto.c lines 351-366): when the NVS
namespace opens, erase the three keys and commit; in every case zero the
in-memory context and return 0. -/
def gostt_crypto_erase (nvs_open_ok : Bool) (_ctx : CryptoCtx)
    (store : NvsStore) : Int × CryptoCtx × NvsStore :=
  let store2 := if nvs_open_ok then (⟨none, none, none⟩ : NvsStore) else store
  (0, cryptoCtxZero, store2)

/-! ## BLE write handler (ble_server.c, tx_char_write_cb lines 34-130)

The handler's observable actions are modelled as an event trace: LED
status-sink updates, the response notification sent back over the link,
and the calls into the text and command sinks.  The handler returns the
ATT status code together with the trace and the session / store after the
call.  External conditions (connection handle validity, mbuf allocation,
whether the sink callbacks are non-NULL) live in the environment. -/

inductive BleEvent where
  | sentResponse (bytes : List Nat)
  | ledError
  | ledPaired
  | ledTyping
  | onText (msg : List Nat)
  | onCommand (kind : Nat) (payload : List Nat)
deriving DecidableEq

structure BleEnv where
  ctx : CryptoCtx
  pairEnv : PairEnv
  denv : DecryptEnv
  conn_valid : Bool
  mbuf_ok : Bool
  has_on_text : Bool
  has_on_command : Bool
  store : NvsStore

/-- Classification of an inbound write by the guards at the top of
tx_char_write_cb, in source order: the empty-write early return (line
41), the oversize rejection (lines 44-47), the pairing detection (lines
51-52), and everything else, which flows into the encrypted-command
path. -/
inductive WriteClass where
  | ignoredEmpty
  | tooLarge
  | pairing
  | encryptedCommand
deriving DecidableEq

def classify_write (buf : List Nat) : WriteClass :=
  if buf.length = 0 then .ignoredEmpty
  else if 512 < buf.length then .tooLarge
  else if buf.length = 33 ∧ (buf.headI = 2 ∨ buf.headI = 3) then .pairing
  else .encryptedCommand

/-- The ATT error the handler returns for oversize writes
(BLE_ATT_ERR_INVALID_ATTR_VALUE_LEN). -/
def ATT_ERR_INVALID_ATTR_VALUE_LEN : Int := 0x0D

/-- Pairing branch (ble_server.c lines 53-78): run gostt_crypto_pair; on
failure flash the error LED; on success encode
ResponsePacket(PeerStatus=1, Known=1, own pubkey), notify it when the
encode succeeded, the connection handle is valid and the mbuf allocation
succeeds, then set the paired LED. -/
def handlePairing (env : BleEnv) (buf : List Nat) :
    Int × List BleEvent × CryptoCtx × NvsStore :=
  let res := gostt_crypto_pair env.pairEnv env.ctx buf env.store
  if res.1 ≠ 0 then (0, [BleEvent.ledError], res.2.2.1, res.2.2.2)
  else
    let own := res.2.1.getD []
    let evs :=
      match gostt_encode_response_packet 128 1 1 (some own) with
      | some resp =>
        if env.conn_valid && env.mbuf_ok then [BleEvent.sentResponse resp]
        else []
      | none => []
    (0, evs ++ [BleEvent.ledPaired], res.2.2.1, res.2.2.2)

/-- Encrypted-command branch (ble_server.c lines 82-129): silently drop
when no key, decode the DataPacket, decrypt, decode the EncryptedData
wrapper, then dispatch: command_type 0 with a present keyboard payload
decodes the KeyboardPacket and, when that decode succeeds, flashes the
typing LED and forwards the message to the text sink; a positive
command_type forwards payload and kind to the command sink; a failing
KeyboardPacket decode falls through silently. -/
def handleEncryptedCommand (env : BleEnv) (buf : List Nat) :
    Int × List BleEvent × CryptoCtx × NvsStore :=
  if ¬ env.ctx.has_key then (0, [], env.ctx, env.store)
  else
    match gostt_decode_data_packet buf with
    | none => (0, [BleEvent.ledError], env.ctx, env.store)
    | some pkt =>
      let dres := gostt_crypto_decrypt env.denv env.ctx pkt.iv pkt.tag
        pkt.encrypted_data
      if dres.1 < 0 then (0, [BleEvent.ledError], env.ctx, env.store)
      else
        match gostt_decode_encrypted_data (dres.2.getD []) with
        | none => (0, [BleEvent.ledError], env.ctx, env.store)
        | some ed =>
          if ed.command_type = 0 ∧ ed.keyboard_packet_data.isSome then
            match gostt_decode_keyboard_packet
                (ed.keyboard_packet_data.getD []) with
            | some kbd =>
              (0, BleEvent.ledTyping ::
                  (if env.has_on_text then [BleEvent.onText (kbd.message.getD [])]
                   else []),
                env.ctx, env.store)
            | none => (0, [], env.ctx, env.store)
          else if 0 < ed.command_type ∧ env.has_on_command then
            (0, [BleEvent.onCommand ed.command_type ed.command_data],
              env.ctx, env.store)
          else (0, [], env.ctx, env.store)

/-- Model of tx_char_write_cb: the guard sequence from the top of the C
handler, dispatching to the pairing or encrypted-command branch. -/
def tx_char_write_cb (env : BleEnv) (buf : List Nat) :
    Int × List BleEvent × CryptoCtx × NvsStore :=
  match classify_write buf with
  | .ignoredEmpty => (0, [], env.ctx, env.store)
  | .tooLarge => (ATT_ERR_INVALID_ATTR_VALUE_LEN, [], env.ctx, env.store)
  | .pairing => handlePairing env buf
  | .encryptedCommand => handleEncryptedCommand env buf

/-- True when the trace contains a text-sink or command-sink call. -/
def sinkInvoked (evs : List BleEvent) : Bool :=
  evs.any fun e =>
    match e with
    | BleEvent.onText _ => true
    | BleEvent.onCommand _ _ => true
    | _ => false

/-! ## Claim theorems -/

/-- C9: gostt_crypto_erase is idempotent and unconditional: for every
session state and store, a second erase leaves exactly the state of the
first, the call returns 0, the in-memory context is zeroed with
has_key false, and when the NVS namespace opens the persisted symmetric
key, peer public key and mute configuration are all absent. -/
theorem crypto_erase_idempotent :
    ∀ (b : Bool) (ctx : CryptoCtx) (store : NvsStore),
      gostt_crypto_erase b (gostt_crypto_erase b ctx store).2.1
          (gostt_crypto_erase b ctx store).2.2
        = gostt_crypto_erase b ctx store
      ∧ (gostt_crypto_erase b ctx store).1 = 0
      ∧ (gostt_crypto_erase b ctx store).2.1 = cryptoCtxZero
      ∧ cryptoCtxZero.has_key = false
      ∧ (gostt_crypto_erase true ctx store).2.2 = ⟨none, none, none⟩ := by
  intro b ctx store
  cases b <;> simp [gostt_crypto_erase, cryptoCtxZero]

/-- DataPacket test vector whose encrypted_payload field is declared with
length 0: iv and tag fields as in the golden vector, then field 3 with
zero length. -/
def emptyPayloadVec : List Nat :=
  [0x0a, 0x0c] ++ List.replicate 12 0 ++ [0x12, 0x10] ++ List.replicate 16 0
    ++ [0x1a, 0x00]

/-- C10: with a key present, gostt_crypto_decrypt rejects a zero-length
ciphertext and a ciphertext longer than INT_MAX with -1 for every AEAD
oracle (so no AEAD decryption can be attempted), although the codec layer
accepts a DataPacket whose encrypted_payload has declared length 0. -/
theorem decrypt_rejects_empty_or_oversize :
    ∀ (denv : DecryptEnv) (ctx : CryptoCtx) (iv tag ct : List Nat),
      ctx.has_key = true → (ct.length = 0 ∨ INT_MAX < ct.length) →
      gostt_crypto_decrypt denv ctx iv tag ct = (-1, none)
      ∧ gostt_decode_data_packet emptyPayloadVec = some dataPacketInit := by
  intro denv ctx iv tag ct hkey hlen
  constructor
  · unfold gostt_crypto_decrypt
    rw [hkey, if_neg (by simp), if_pos hlen]
  · decide

/-- Witness for decrypt_rejects_empty_or_oversize at a concrete
environment, key-bearing session and the empty ciphertext. -/
theorem decrypt_rejects_empty_or_oversize_witness :
    gostt_crypto_decrypt ⟨true, true, fun _ _ _ => some []⟩
        ⟨List.replicate 32 1, true, List.replicate 33 2⟩ [] [] [] = (-1, none)
      ∧ gostt_decode_data_packet emptyPayloadVec = some dataPacketInit :=
  decrypt_rejects_empty_or_oversize ⟨true, true, fun _ _ _ => some []⟩
    ⟨List.replicate 32 1, true, List.replicate 33 2⟩ [] [] [] rfl (Or.inl rfl)

/-- C3 (amended): whenever gostt_crypto_pair fails it returns -1;
has_key, peer_pubkey and the persisted store are exactly as before the
call, and aes_key is either untouched or, only when the failure is in
the final derivation-output step, which the C runs directly on
ctx->aes_key, overwritten with the library's failure fill; every failure
up to and including the pre-output derivation steps, and in particular a
peer point the decompression rejects (an invalid or off-curve point),
leaves the whole session state and store unchanged. -/
theorem crypto_pair_failure_preserves_state :
    ∀ (env : PairEnv) (ctx : CryptoCtx) (peer : List Nat) (store : NvsStore),
      ((gostt_crypto_pair env ctx peer store).1 ≠ 0 →
        (gostt_crypto_pair env ctx peer store).1 = -1
        ∧ (gostt_crypto_pair env ctx peer store).2.2.1.has_key = ctx.has_key
        ∧ (gostt_crypto_pair env ctx peer store).2.2.1.peer_pubkey
            = ctx.peer_pubkey
        ∧ (gostt_crypto_pair env ctx peer store).2.2.2 = store
        ∧ ((gostt_crypto_pair env ctx peer store).2.2.1.aes_key = ctx.aes_key
           ∨ (gostt_crypto_pair env ctx peer store).2.2.1.aes_key
              = env.hkdf_fail_fill))
      ∧ (env.decompress peer = none →
        (gostt_crypto_pair env ctx peer store).1 = -1
        ∧ (gostt_crypto_pair env ctx peer store).2.2.1 = ctx
        ∧ (gostt_crypto_pair env ctx peer store).2.2.2 = store) := by
  intro env ctx peer store
  constructor
  · intro hne
    revert hne
    unfold gostt_crypto_pair
    split
    · intro _; exact ⟨rfl, rfl, rfl, rfl, Or.inl rfl⟩
    · split
      · intro _; exact ⟨rfl, rfl, rfl, rfl, Or.inl rfl⟩
      · split
        · intro _; exact ⟨rfl, rfl, rfl, rfl, Or.inl rfl⟩
        · split
          · intro _; exact ⟨rfl, rfl, rfl, rfl, Or.inl rfl⟩
          · split
            · intro _; exact ⟨rfl, rfl, rfl, rfl, Or.inl rfl⟩
            · split
              · intro _; exact ⟨rfl, rfl, rfl, rfl, Or.inl rfl⟩
              · split
                · intro _; exact ⟨rfl, rfl, rfl, rfl, Or.inr rfl⟩
                · intro hne; exact absurd rfl hne
  · intro hdec
    unfold gostt_crypto_pair
    rw [hdec]
    split
    · exact ⟨rfl, rfl, rfl⟩
    · split
      · exact ⟨rfl, rfl, rfl⟩
      · split
        · exact ⟨rfl, rfl, rfl⟩
        · exact ⟨rfl, rfl, rfl⟩

/-- Environment in which everything succeeds up to the final HKDF output
step, which fails; the failure fill is the 0x21 bytes the mbedtls
implementation writes into the output buffer on error. -/
def pairEnvOutputFail : PairEnv :=
  ⟨true, true, [], fun _ => some (List.replicate 33 2),
   fun _ => some (List.replicate 65 4), some (List.replicate 32 9),
   true, fun _ => none, List.replicate 32 0x21, true, true, true⟩

def pairCtxBefore : CryptoCtx :=
  ⟨List.replicate 32 5, true, List.replicate 33 3⟩

def pairStoreBefore : NvsStore :=
  ⟨some (List.replicate 32 5), some (List.replicate 33 3), none⟩

/-- Counterexample to C3 as stated: a re-pairing attempt over a session
that already holds a key, failing at the derivation-output call, returns
the pairing error yet leaves aes_key overwritten with the library's
0x21 fill while has_key stays true, so the session state is not exactly
as it was before the call (the store is still untouched). -/
theorem crypto_pair_derivation_failure_clobbers_key :
    (gostt_crypto_pair pairEnvOutputFail pairCtxBefore
        (List.replicate 33 2) pairStoreBefore).1 = -1
    ∧ (gostt_crypto_pair pairEnvOutputFail pairCtxBefore
        (List.replicate 33 2) pairStoreBefore).2.2.1.aes_key
      = List.replicate 32 0x21
    ∧ ¬ (gostt_crypto_pair pairEnvOutputFail pairCtxBefore
        (List.replicate 33 2) pairStoreBefore).2.2.1.aes_key
      = pairCtxBefore.aes_key
    ∧ (gostt_crypto_pair pairEnvOutputFail pairCtxBefore
        (List.replicate 33 2) pairStoreBefore).2.2.1.has_key = true
    ∧ (gostt_crypto_pair pairEnvOutputFail pairCtxBefore
        (List.replicate 33 2) pairStoreBefore).2.2.2 = pairStoreBefore := by
  decide

/-- Witness for crypto_pair_failure_preserves_state: a session that
already holds a key, paired against an environment whose point
decompression rejects the (valid-length) peer point; the call fails and
state and store are unchanged. -/
theorem crypto_pair_failure_preserves_state_witness :
    (gostt_crypto_pair
        ⟨true, true, [], fun _ => some (List.replicate 33 2), fun _ => none,
          some (List.replicate 32 9), true,
          fun _ => some (List.replicate 32 7), List.replicate 32 0x21,
          true, true, true⟩
        ⟨List.replicate 32 5, true, List.replicate 33 3⟩
        (List.replicate 33 2)
        ⟨some (List.replicate 32 5), some (List.replicate 33 3), none⟩).1 = -1
    ∧ (gostt_crypto_pair
        ⟨true, true, [], fun _ => some (List.replicate 33 2), fun _ => none,
          some (List.replicate 32 9), true,
          fun _ => some (List.replicate 32 7), List.replicate 32 0x21,
          true, true, true⟩
        ⟨List.replicate 32 5, true, List.replicate 33 3⟩
        (List.replicate 33 2)
        ⟨some (List.replicate 32 5), some (List.replicate 33 3), none⟩).2.2.1
      = ⟨List.replicate 32 5, true, List.replicate 33 3⟩
    ∧ (gostt_crypto_pair
        ⟨true, true, [], fun _ => some (List.replicate 33 2), fun _ => none,
          some (List.replicate 32 9), true,
          fun _ => some (List.replicate 32 7), List.replicate 32 0x21,
          true, true, true⟩
        ⟨List.replicate 32 5, true, List.replicate 33 3⟩
        (List.replicate 33 2)
        ⟨some (List.replicate 32 5), some (List.replicate 33 3), none⟩).2.2.2
      = ⟨some (List.replicate 32 5), some (List.replicate 33 3), none⟩ :=
  (crypto_pair_failure_preserves_state _ _ _ _).2 rfl

/-- Spec-side description of the ResponsePacket encoding (spec sections
4.1 and 6): field 1 tag then the kind varint, field 2 tag then the
peer-status varint, and, only when a payload is present and nonempty,
field 3 tag, a length varint and the payload, in that order. -/
def responseSpecBytes (ty st : Nat) (data : Option (List Nat)) : List Nat :=
  0x08 :: varintBytes ty ++ 0x10 :: varintBytes st ++
    (match data with
     | some d => if 0 < d.length then 0x1a :: varintBytes d.length ++ d else []
     | none => [])

/-- C7: gostt_encode_response_packet is deterministic and append-only:
whatever the capacity, a successful encode is exactly the field-1 block,
the field-2 block and, only for a nonempty payload, the field-3 block, in
ascending field order with varint-encoded integers; an absent or empty
payload contributes no bytes at all. -/
theorem encode_response_canonical_form :
    ∀ (bufLen ty st : Nat) (data : Option (List Nat)) (out : List Nat),
      gostt_encode_response_packet bufLen ty st data = some out →
      out = responseSpecBytes ty st data := by
  intro bufLen ty st data out h
  unfold gostt_encode_response_packet at h
  split at h
  · exact absurd h (by simp)
  · cases hty : write_varint (bufLen - 1) ty with
    | none => rw [hty] at h; exact absurd h (by simp)
    | some tyB =>
      rw [hty] at h
      dsimp only [] at h
      split at h
      · exact absurd h (by simp)
      · cases hst : write_varint (bufLen - (1 + tyB.length) - 1) st with
        | none => rw [hst] at h; exact absurd h (by simp)
        | some stB =>
          rw [hst] at h
          dsimp only [] at h
          obtain rfl := write_varint_some hty
          obtain rfl := write_varint_some hst
          cases data with
          | none =>
            obtain rfl := (Option.some.inj h).symm
            simp [responseSpecBytes]
          | some d =>
            dsimp only [] at h
            split at h
            · next hd =>
              split at h
              · exact absurd h (by simp)
              · cases hlen : write_varint
                    (bufLen - (1 + (varintBytes ty).length + 1
                      + (varintBytes st).length) - 1) d.length with
                | none => rw [hlen] at h; exact absurd h (by simp)
                | some lenB =>
                  rw [hlen] at h
                  dsimp only [] at h
                  split at h
                  · exact absurd h (by simp)
                  · obtain rfl := (Option.some.inj h).symm
                    obtain rfl := write_varint_some hlen
                    simp [responseSpecBytes, hd, List.append_assoc]
            · next hd =>
              obtain rfl := (Option.some.inj h).symm
              simp [responseSpecBytes, hd]

/-- Witness for encode_response_canonical_form: the spec's golden vector
encode_response_packet(PeerStatus=1, Unknown=0, [0xDE, 0xAD]). -/
theorem encode_response_canonical_form_witness :
    gostt_encode_response_packet 64 1 0 (some [0xDE, 0xAD])
      = some [0x08, 0x01, 0x10, 0x00, 0x1a, 0x02, 0xDE, 0xAD]
    ∧ responseSpecBytes 1 0 (some [0xDE, 0xAD])
      = [0x08, 0x01, 0x10, 0x00, 0x1a, 0x02, 0xDE, 0xAD] := by
  constructor
  · decide
  · have h := encode_response_canonical_form 64 1 0 (some [0xDE, 0xAD])
      [0x08, 0x01, 0x10, 0x00, 0x1a, 0x02, 0xDE, 0xAD] (by decide)
    exact h.symm

/-- C2 (amended): gostt_decode_data_packet rejects any buffer in which an
iv field (field 1) occurs with declared length other than 12 or a tag
field (field 2) occurs with declared length other than 16, wherever that
field sits after a sequence of well-formed fields; the fields are however
optional: their absence does not make the decode fail (see the
counterexample theorem on the empty buffer). -/
theorem data_packet_iv_tag_length_checks :
    ∀ (fs : List WireField), (∀ fld ∈ fs, fieldWF fld) →
      ∀ (p rest : List Nat), p.length < 2 ^ 64 →
        (p.length ≠ 12 →
          gostt_decode_data_packet
            (encFields fs ++ (encodeField (WireField.bytesF 1 p) ++ rest))
            = none)
        ∧ (p.length ≠ 16 →
          gostt_decode_data_packet
            (encFields fs ++ (encodeField (WireField.bytesF 2 p) ++ rest))
            = none) := by
  intro fs hwf p rest h64
  constructor
  · intro hne
    unfold gostt_decode_data_packet
    rw [decodeRun_encFields dataApplyV dataApplyB fs hwf _ dataPacketInit]
    cases hf : List.foldl (stepField dataApplyV dataApplyB)
        (some dataPacketInit) fs with
    | none => rfl
    | some s =>
      dsimp only [Option.bind]
      rw [decodeRun_cons_field dataApplyV dataApplyB _
        (by exact ⟨by norm_num, h64⟩) rest s]
      simp [applyField, dataApplyB, hne]
  · intro hne
    unfold gostt_decode_data_packet
    rw [decodeRun_encFields dataApplyV dataApplyB fs hwf _ dataPacketInit]
    cases hf : List.foldl (stepField dataApplyV dataApplyB)
        (some dataPacketInit) fs with
    | none => rfl
    | some s =>
      dsimp only [Option.bind]
      rw [decodeRun_cons_field dataApplyV dataApplyB _
        (by exact ⟨by norm_num, h64⟩) rest s]
      simp [applyField, dataApplyB, hne]

/-- Counterexample to C2 as stated: the claim requires decode to fail
whenever the iv or tag field is absent, but the empty buffer, which
contains neither field, decodes successfully to the zero-initialised
packet. -/
theorem data_packet_decode_accepts_missing_iv_tag :
    gostt_decode_data_packet [] = some dataPacketInit := by decide

/-- Witness for data_packet_iv_tag_length_checks: an iv field declared
with 3 bytes, preceded by a well-formed sequence-number field, is
rejected. -/
theorem data_packet_iv_tag_length_checks_witness :
    gostt_decode_data_packet
      (encFields [WireField.varintF 4 42]
        ++ (encodeField (WireField.bytesF 1 [7, 7, 7]) ++ []))
      = none :=
  (data_packet_iv_tag_length_checks [WireField.varintF 4 42]
    (by intro fld hm; simp at hm; subst hm; exact ⟨by norm_num, by norm_num⟩)
    [7, 7, 7] [] (by norm_num)).1 (by norm_num)

/-- C5 (amended): for each of the spec's decode test vectors, truncation
at a split point that lies inside a field yields a decode error, while
truncation exactly at a field boundary (including the empty truncation)
yields a successful decode, the fields being optional; no other outcome
occurs.  Boundaries: the hello keyboard vector after its 7-byte message
field and the empty keyboard vector after its 2-byte message field; the
DataPacket vector after the iv (14), tag (32) and payload (37) fields;
the EncryptedData vector has no internal field boundary. -/
theorem truncated_vectors_decode_outcomes :
    (∀ k, k < 9 →
      (gostt_decode_keyboard_packet (kbdHelloVec.take k)).isSome
        = (k == 0 || k == 7))
    ∧ (∀ k, k < 4 →
      (gostt_decode_keyboard_packet (kbdEmptyVec.take k)).isSome
        = (k == 0 || k == 2))
    ∧ (∀ k, k < 39 →
      (gostt_decode_data_packet (dataPacketVec.take k)).isSome
        = (k == 0 || k == 14 || k == 32 || k == 37))
    ∧ (∀ k, k < 11 →
      (gostt_decode_encrypted_data (encDataVec.take k)).isSome
        = (k == 0)) := by
  refine ⟨?_, ?_, ?_, ?_⟩ <;> decide

/-- Counterexample to C5 as stated: the claim requires every proper
truncation of a vector to produce a decode error, but cutting the hello
keyboard vector after its complete message field (7 of 9 bytes) decodes
successfully, with the trailing declared-length field simply absent. -/
theorem truncated_keyboard_vector_decodes :
    gostt_decode_keyboard_packet (kbdHelloVec.take 7)
      = some ⟨some [0x68, 0x65, 0x6c, 0x6c, 0x6f], 0⟩ := by decide

/-- Witness for truncated_vectors_decode_outcomes: a mid-field truncation
of the hello vector (3 bytes) fails to decode. -/
theorem truncated_vectors_decode_outcomes_witness :
    (gostt_decode_keyboard_packet (kbdHelloVec.take 3)).isSome
      = (3 == 0 || 3 == 7) :=
  truncated_vectors_decode_outcomes.1 3 (by norm_num)

lemma gostt_crypto_decrypt_shape (env : DecryptEnv) (ctx : CryptoCtx)
    (iv tag ct : List Nat) :
    (gostt_crypto_decrypt env ctx iv tag ct = (-1, none)
      ∧ (gostt_crypto_decrypt env ctx iv tag ct).1 < 0)
    ∨ ∃ pt, gostt_crypto_decrypt env ctx iv tag ct = ((pt.length : Int), some pt)
        ∧ ¬ (gostt_crypto_decrypt env ctx iv tag ct).1 < 0 := by
  unfold gostt_crypto_decrypt
  split
  · exact Or.inl ⟨rfl, by norm_num⟩
  · split
    · exact Or.inl ⟨rfl, by norm_num⟩
    · split
      · exact Or.inl ⟨rfl, by norm_num⟩
      · split
        · exact Or.inl ⟨rfl, by norm_num⟩
        · split
          · exact Or.inl ⟨rfl, by norm_num⟩
          · next pt _ =>
            exact Or.inr ⟨pt, rfl, by simp⟩

/-- C1: a text-sink or command-sink event can appear in the handler's
trace only when the write was classified as an encrypted command, a key
was present, the DataPacket decode succeeded, the authenticated
decryption succeeded and the EncryptedData decode of the plaintext
succeeded; a write arriving with no key present is discarded with no
events at all, and the pairing branch never produces a sink event. -/
theorem tx_sinks_require_full_decode_chain :
    ∀ (env : BleEnv) (buf : List Nat),
      (sinkInvoked (tx_char_write_cb env buf).2.1 = true →
        classify_write buf = WriteClass.encryptedCommand
        ∧ env.ctx.has_key = true
        ∧ ∃ pkt, gostt_decode_data_packet buf = some pkt
            ∧ ∃ pt, (gostt_crypto_decrypt env.denv env.ctx pkt.iv pkt.tag
                  pkt.encrypted_data).2 = some pt
              ∧ ∃ ed, gostt_decode_encrypted_data pt = some ed)
      ∧ (classify_write buf = WriteClass.pairing →
          sinkInvoked (tx_char_write_cb env buf).2.1 = false)
      ∧ (classify_write buf = WriteClass.encryptedCommand →
          env.ctx.has_key = false →
          tx_char_write_cb env buf = (0, [], env.ctx, env.store)) := by
  intro env buf
  refine ⟨?_, ?_, ?_⟩
  · intro hsink
    cases hc : classify_write buf with
    | ignoredEmpty =>
      unfold tx_char_write_cb at hsink
      rw [hc] at hsink
      exact Bool.noConfusion hsink
    | tooLarge =>
      unfold tx_char_write_cb at hsink
      rw [hc] at hsink
      exact Bool.noConfusion hsink
    | pairing =>
      unfold tx_char_write_cb at hsink
      rw [hc] at hsink
      dsimp only [] at hsink
      unfold handlePairing at hsink
      dsimp only [] at hsink
      split at hsink
      · exact Bool.noConfusion hsink
      · revert hsink
        split
        · split
          · intro hsink; exact Bool.noConfusion hsink
          · intro hsink; exact Bool.noConfusion hsink
        · intro hsink; exact Bool.noConfusion hsink
    | encryptedCommand =>
      refine ⟨rfl, ?_⟩
      unfold tx_char_write_cb at hsink
      rw [hc] at hsink
      dsimp only [] at hsink
      unfold handleEncryptedCommand at hsink
      split at hsink
      · exact Bool.noConfusion hsink
      · next hkeyn =>
        have hkey : env.ctx.has_key = true := by
          revert hkeyn
          cases env.ctx.has_key <;> simp
        refine ⟨hkey, ?_⟩
        revert hsink
        split
        · intro hsink; exact Bool.noConfusion hsink
        · next pkt hpkt =>
          intro hsink
          refine ⟨pkt, hpkt, ?_⟩
          rcases gostt_crypto_decrypt_shape env.denv env.ctx pkt.iv pkt.tag
              pkt.encrypted_data with ⟨heqd, _⟩ | ⟨pt, heq, _⟩
          · rw [heqd] at hsink
            dsimp only [] at hsink
            rw [if_pos (show (-1 : Int) < 0 by norm_num)] at hsink
            exact Bool.noConfusion hsink
          · rw [heq] at hsink
            dsimp only [] at hsink
            rw [if_neg (show ¬ ((pt.length : Int) < 0) from
              not_lt.mpr (Int.natCast_nonneg _))] at hsink
            refine ⟨pt, by rw [heq], ?_⟩
            revert hsink
            split
            · intro hsink; exact Bool.noConfusion hsink
            · next ed hed =>
              intro _
              exact ⟨ed, hed⟩
  · intro hc
    unfold tx_char_write_cb
    rw [hc]
    dsimp only []
    unfold handlePairing
    dsimp only []
    split
    · rfl
    · split
      · split
        · rfl
        · rfl
      · rfl
  · intro hc hkey
    unfold tx_char_write_cb
    rw [hc]
    dsimp only []
    unfold handleEncryptedCommand
    simp [hkey]

/-! ### Concrete environments for witnesses and counterexamples -/

def ctxWithKey : CryptoCtx := ⟨List.replicate 32 1, true, List.replicate 33 2⟩

def pairEnvFail : PairEnv :=
  ⟨true, true, [], fun _ => none, fun _ => none, none, true, fun _ => none,
   List.replicate 32 0x21, true, true, true⟩

/-- Decrypt oracle that always yields the plaintext 0x0a 0x01 0x07: an
EncryptedData whose field 1 carries the single byte 0x07, which is not a
decodable KeyboardPacket (wire type 7). -/
def denvKbdBad : DecryptEnv := ⟨true, true, fun _ _ _ => some [0x0a, 0x01, 0x07]⟩

def storeEmpty : NvsStore := ⟨none, none, none⟩

def envProbe : BleEnv :=
  ⟨ctxWithKey, pairEnvFail, denvKbdBad, true, true, true, true, storeEmpty⟩

/-- Witness for tx_sinks_require_full_decode_chain: a pairing-classified
write (33 bytes starting 0x02) produces no sink event. -/
theorem tx_sinks_require_full_decode_chain_witness :
    sinkInvoked (tx_char_write_cb envProbe (List.replicate 33 2)).2.1 = false :=
  (tx_sinks_require_full_decode_chain envProbe (List.replicate 33 2)).2.1
    (by decide)

/-- C4 (amended): a write is classified as a pairing request exactly when
it is 33 bytes long and starts with 0x02 or 0x03; a pairing-classified
write runs the pairing branch and an encrypted-command-classified write
runs the encrypted-command branch; on pairing success with a valid
connection and successful mbuf allocation the handler's trace is exactly
the notification of the encoded ResponsePacket(PeerStatus, Known, own
pubkey) followed by the paired LED.  Writes of length 0 are ignored and
writes longer than 512 bytes are rejected before classification (see the
counterexample theorem), so only writes of length 1 to 512 reach the
encrypted-command treatment. -/
theorem pairing_classification_and_response :
    (∀ buf : List Nat, classify_write buf = WriteClass.pairing
        ↔ buf.length = 33 ∧ (buf.headI = 2 ∨ buf.headI = 3))
    ∧ (∀ (env : BleEnv) (buf : List Nat),
        classify_write buf = WriteClass.pairing →
        tx_char_write_cb env buf = handlePairing env buf)
    ∧ (∀ (env : BleEnv) (buf : List Nat),
        classify_write buf = WriteClass.encryptedCommand →
        tx_char_write_cb env buf = handleEncryptedCommand env buf)
    ∧ (∀ (env : BleEnv) (buf own resp : List Nat),
        classify_write buf = WriteClass.pairing →
        (gostt_crypto_pair env.pairEnv env.ctx buf env.store).1 = 0 →
        (gostt_crypto_pair env.pairEnv env.ctx buf env.store).2.1 = some own →
        gostt_encode_response_packet 128 1 1 (some own) = some resp →
        env.conn_valid = true → env.mbuf_ok = true →
        (tx_char_write_cb env buf).2.1
          = [BleEvent.sentResponse resp, BleEvent.ledPaired]) := by
  refine ⟨?_, ?_, ?_, ?_⟩
  · intro buf
    unfold classify_write
    split_ifs with h1 h2 h3
    · constructor
      · intro hcon; exact absurd hcon (by decide)
      · intro hcond; obtain ⟨h33, _⟩ := hcond; omega
    · constructor
      · intro hcon; exact absurd hcon (by decide)
      · intro hcond; obtain ⟨h33, _⟩ := hcond; omega
    · exact ⟨fun _ => h3, fun _ => rfl⟩
    · constructor
      · intro hcon; exact absurd hcon (by decide)
      · intro hcond; exact absurd hcond h3
  · intro env buf hc
    unfold tx_char_write_cb
    rw [hc]
  · intro env buf hc
    unfold tx_char_write_cb
    rw [hc]
  · intro env buf own resp hc hp0 hpo he hcv hmb
    unfold tx_char_write_cb
    rw [hc]
    dsimp only []
    unfold handlePairing
    dsimp only []
    rw [if_neg (show ¬ (gostt_crypto_pair env.pairEnv env.ctx buf env.store).1
        ≠ 0 from fun hne => hne hp0)]
    rw [hpo]
    simp only [Option.getD_some]
    rw [he]
    dsimp only []
    simp [hcv, hmb]

set_option maxRecDepth 40000 in
/-- Counterexample to C4 as stated: the claim makes every non-pairing
write an encrypted command, but a 513-byte write is rejected with the
ATT length error before any classification, producing neither the
encrypted-command trace (which, with a key present, would flash the
error LED on this input) nor any decode attempt. -/
theorem oversize_write_not_treated_as_command :
    classify_write (List.replicate 513 0) = WriteClass.tooLarge
    ∧ tx_char_write_cb envProbe (List.replicate 513 0)
        = (ATT_ERR_INVALID_ATTR_VALUE_LEN, [], ctxWithKey, storeEmpty)
    ∧ handleEncryptedCommand envProbe (List.replicate 513 0)
        = (0, [BleEvent.ledError], ctxWithKey, storeEmpty) := by
  refine ⟨by decide, by decide, by decide⟩

/-- Witness for pairing_classification_and_response: a 33-byte write
starting 0x03 is classified as pairing and dispatched to the pairing
branch. -/
theorem pairing_classification_and_response_witness :
    classify_write (List.replicate 33 3) = WriteClass.pairing
    ∧ tx_char_write_cb envProbe (List.replicate 33 3)
        = handlePairing envProbe (List.replicate 33 3) :=
  ⟨by decide,
   pairing_classification_and_response.2.1 envProbe _ (by decide)⟩

/-- C6 (amended): on the encrypted-command path with a key present, a
DataPacket decode failure, a decrypt failure and an EncryptedData decode
failure each discard the packet and flash the error LED, the handler
returning 0 with session and store untouched; a nested KeyboardPacket
decode failure also discards the packet and returns 0, but silently,
with no error signal (see the counterexample theorem). -/
theorem encrypted_path_failure_handling :
    ∀ (env : BleEnv) (buf : List Nat),
      classify_write buf = WriteClass.encryptedCommand →
      env.ctx.has_key = true →
      (gostt_decode_data_packet buf = none →
        tx_char_write_cb env buf = (0, [BleEvent.ledError], env.ctx, env.store))
      ∧ (∀ pkt, gostt_decode_data_packet buf = some pkt →
          gostt_crypto_decrypt env.denv env.ctx pkt.iv pkt.tag
              pkt.encrypted_data = (-1, none) →
          tx_char_write_cb env buf = (0, [BleEvent.ledError], env.ctx, env.store))
      ∧ (∀ pkt pt, gostt_decode_data_packet buf = some pkt →
          gostt_crypto_decrypt env.denv env.ctx pkt.iv pkt.tag
              pkt.encrypted_data = ((pt.length : Int), some pt) →
          gostt_decode_encrypted_data pt = none →
          tx_char_write_cb env buf = (0, [BleEvent.ledError], env.ctx, env.store))
      ∧ (∀ pkt pt ed kd, gostt_decode_data_packet buf = some pkt →
          gostt_crypto_decrypt env.denv env.ctx pkt.iv pkt.tag
              pkt.encrypted_data = ((pt.length : Int), some pt) →
          gostt_decode_encrypted_data pt = some ed →
          ed.command_type = 0 → ed.keyboard_packet_data = some kd →
          gostt_decode_keyboard_packet kd = none →
          tx_char_write_cb env buf = (0, [], env.ctx, env.store)) := by
  intro env buf hc hkey
  have hkeyc : ¬ ¬ env.ctx.has_key = true := by simp [hkey]
  refine ⟨?_, ?_, ?_, ?_⟩
  · intro hdec
    unfold tx_char_write_cb
    rw [hc]
    dsimp only []
    unfold handleEncryptedCommand
    rw [if_neg hkeyc, hdec]
  · intro pkt hdec hdecr
    unfold tx_char_write_cb
    rw [hc]
    dsimp only []
    unfold handleEncryptedCommand
    rw [if_neg hkeyc, hdec]
    dsimp only []
    rw [hdecr]
    dsimp only []
    rw [if_pos (show (-1 : Int) < 0 by norm_num)]
  · intro pkt pt hdec hdecr hde
    unfold tx_char_write_cb
    rw [hc]
    dsimp only []
    unfold handleEncryptedCommand
    rw [if_neg hkeyc, hdec]
    dsimp only []
    rw [hdecr]
    dsimp only []
    rw [if_neg (show ¬ ((pt.length : Int) < 0) from
      not_lt.mpr (Int.natCast_nonneg _))]
    simp only [Option.getD_some]
    rw [hde]
  · intro pkt pt ed kd hdec hdecr hde hct0 hkd hkbd
    unfold tx_char_write_cb
    rw [hc]
    dsimp only []
    unfold handleEncryptedCommand
    rw [if_neg hkeyc, hdec]
    dsimp only []
    rw [hdecr]
    dsimp only []
    rw [if_neg (show ¬ ((pt.length : Int) < 0) from
      not_lt.mpr (Int.natCast_nonneg _))]
    simp only [Option.getD_some]
    rw [hde]
    dsimp only []
    rw [if_pos (show ed.command_type = 0
        ∧ ed.keyboard_packet_data.isSome = true from
      ⟨hct0, by rw [hkd]; rfl⟩)]
    rw [hkd]
    simp only [Option.getD_some]
    rw [hkbd]

/-- Counterexample to C6 as stated: a packet that decodes and decrypts
but whose nested KeyboardPacket fails to decode is discarded with no
error signal at all: the trace is empty, not an error indication. -/
theorem keyboard_decode_failure_signals_no_error :
    tx_char_write_cb envProbe dataPacketVec = (0, [], ctxWithKey, storeEmpty)
      := by decide

/-- Witness for encrypted_path_failure_handling: a 1-byte write 0xFF is
classified as an encrypted command, fails to decode as a DataPacket and
flashes the error LED. -/
theorem encrypted_path_failure_handling_witness :
    tx_char_write_cb envProbe [0xFF]
      = (0, [BleEvent.ledError], ctxWithKey, storeEmpty) :=
  (encrypted_path_failure_handling envProbe [0xFF] (by decide) (by decide)).1
    (by decide)

lemma dataStep_comm (x y : WireField) (hne : wfNum x ≠ wfNum y)
    (os : Option DataPacket) :
    stepField dataApplyV dataApplyB (stepField dataApplyV dataApplyB os x) y
      = stepField dataApplyV dataApplyB (stepField dataApplyV dataApplyB os y) x := by
  cases os with
  | none => rfl
  | some s =>
    obtain ⟨iv0, tag0, enc0, num0⟩ := s
    cases x <;> cases y <;>
      simp only [wfNum] at hne <;>
      simp only [stepField, Option.some_bind, Option.none_bind, applyField,
        dataApplyV, dataApplyB] <;>
      split_ifs <;>
      simp_all [stepField, applyField, dataApplyV, dataApplyB]

lemma kbdStep_comm (x y : WireField) (hne : wfNum x ≠ wfNum y)
    (os : Option KeyboardPacket) :
    stepField kbdApplyV kbdApplyB (stepField kbdApplyV kbdApplyB os x) y
      = stepField kbdApplyV kbdApplyB (stepField kbdApplyV kbdApplyB os y) x := by
  cases os with
  | none => rfl
  | some s =>
    obtain ⟨msg0, len0⟩ := s
    cases x <;> cases y <;>
      simp only [wfNum] at hne <;>
      simp only [stepField, Option.some_bind, Option.none_bind, applyField,
        kbdApplyV, kbdApplyB] <;>
      split_ifs <;>
      simp_all [stepField, applyField, kbdApplyV, kbdApplyB]

lemma encStep_comm (x y : WireField) (hne : wfNum x ≠ wfNum y)
    (os : Option EncryptedData) :
    stepField encApplyV encApplyB (stepField encApplyV encApplyB os x) y
      = stepField encApplyV encApplyB (stepField encApplyV encApplyB os y) x := by
  cases os with
  | none => rfl
  | some s =>
    obtain ⟨kbd0, ct0, cd0⟩ := s
    cases x <;> cases y <;>
      simp only [wfNum] at hne <;>
      simp only [stepField, Option.some_bind, Option.none_bind, applyField,
        encApplyV, encApplyB] <;>
      split_ifs <;>
      simp_all [stepField, applyField, encApplyV, encApplyB]

/-- Field numbers the DataPacket decoder does not recognise for the
given wire type (it stores varint field 4 and byte fields 1, 2, 3). -/
def dataUnknown : WireField → Prop
  | .varintF n _ => n ≠ 4
  | .bytesF n _ => n ≠ 1 ∧ n ≠ 2 ∧ n ≠ 3

/-- Field numbers the KeyboardPacket decoder does not recognise (varint
field 2, byte field 1). -/
def kbdUnknown : WireField → Prop
  | .varintF n _ => n ≠ 2
  | .bytesF n _ => n ≠ 1

/-- Field numbers the EncryptedData decoder does not recognise (varint
field 2, byte fields 1 and 3). -/
def encUnknown : WireField → Prop
  | .varintF n _ => n ≠ 2
  | .bytesF n _ => n ≠ 1 ∧ n ≠ 3

instance : DecidablePred dataUnknown := by
  intro f
  cases f <;> (dsimp [dataUnknown]; infer_instance)

instance : DecidablePred kbdUnknown := by
  intro f
  cases f <;> (dsimp [kbdUnknown]; infer_instance)

instance : DecidablePred encUnknown := by
  intro f
  cases f <;> (dsimp [encUnknown]; infer_instance)

lemma dataApply_unknown (s : DataPacket) (fld : WireField)
    (h : dataUnknown fld) : applyField dataApplyV dataApplyB s fld = some s := by
  cases fld with
  | varintF n v =>
    simp only [dataUnknown] at h
    simp [applyField, dataApplyV, h]
  | bytesF n p =>
    obtain ⟨h1, h2, h3⟩ := h
    simp [applyField, dataApplyB, h1, h2, h3]

lemma kbdApply_unknown (s : KeyboardPacket) (fld : WireField)
    (h : kbdUnknown fld) : applyField kbdApplyV kbdApplyB s fld = some s := by
  cases fld with
  | varintF n v =>
    simp only [kbdUnknown] at h
    simp [applyField, kbdApplyV, h]
  | bytesF n p =>
    simp only [kbdUnknown] at h
    simp [applyField, kbdApplyB, h]

lemma encApply_unknown (s : EncryptedData) (fld : WireField)
    (h : encUnknown fld) : applyField encApplyV encApplyB s fld = some s := by
  cases fld with
  | varintF n v =>
    simp only [encUnknown] at h
    simp [applyField, encApplyV, h]
  | bytesF n p =>
    obtain ⟨h1, h3⟩ := h
    simp [applyField, encApplyB, h1, h3]

lemma decodeRun_bad_wiretype {σ : Type} (aV : σ → Nat → Nat → σ)
    (aB : σ → Nat → List Nat → Option σ) (n wt : Nat) (hn : n < 2 ^ 32)
    (hwt8 : wt < 8) (h0 : wt ≠ 0) (h2 : wt ≠ 2) (rest : List Nat) (s : σ) :
    decodeRun aV aB (varintBytes (n * 8 + wt) ++ rest) s = none := by
  have htag64 : n * 8 + wt < 2 ^ 64 := by
    have : (2 : Nat) ^ 32 * 8 + 8 ≤ 2 ^ 64 := by norm_num
    omega
  have hne : varintBytes (n * 8 + wt) ++ rest ≠ [] := by
    cases hvb : varintBytes (n * 8 + wt) with
    | nil => exact absurd hvb (varintBytes_ne_nil _)
    | cons a as => simp [hvb]
  rw [decodeRun_ne_nil aV aB _ hne s, read_varint_varintBytes htag64]
  dsimp only []
  have ha : (n * 8 + wt) &&& 7 = wt := by rw [and7_eq_mod]; omega
  rw [ha, if_neg h0, if_neg h2]

lemma decodeRun_encFields_closed {σ : Type} (aV : σ → Nat → Nat → σ)
    (aB : σ → Nat → List Nat → Option σ) (fs : List WireField)
    (hwf : ∀ fld ∈ fs, fieldWF fld) (s : σ) :
    decodeRun aV aB (encFields fs) s = fs.foldl (stepField aV aB) (some s) := by
  have h := decodeRun_encFields aV aB fs hwf [] s
  rw [List.append_nil] at h
  rw [h]
  cases List.foldl (stepField aV aB) (some s) fs <;> rfl

/-- C8: for each decoder, (a) well-formed encoded fields with pairwise
distinct field numbers decode to the same result in any order, (b) a
field whose number the decoder does not recognise (with wire type 0 or
2, the only ones WireField can encode) is skipped by consuming its
value, leaving the decode of the remaining buffer unchanged, and (c) a
leading tag with any wire type other than 0 and 2 makes the decode fail
for every continuation of the buffer. -/
theorem decoder_field_order_skip_and_wiretype :
    (∀ fs fs' : List WireField, (∀ fld ∈ fs, fieldWF fld) →
      (fs.map wfNum).Nodup → fs.Perm fs' →
      gostt_decode_data_packet (encFields fs)
          = gostt_decode_data_packet (encFields fs')
        ∧ gostt_decode_keyboard_packet (encFields fs)
          = gostt_decode_keyboard_packet (encFields fs')
        ∧ gostt_decode_encrypted_data (encFields fs)
          = gostt_decode_encrypted_data (encFields fs'))
    ∧ (∀ (fld : WireField) (rest : List Nat), fieldWF fld →
        (dataUnknown fld →
          gostt_decode_data_packet (encodeField fld ++ rest)
            = gostt_decode_data_packet rest)
        ∧ (kbdUnknown fld →
          gostt_decode_keyboard_packet (encodeField fld ++ rest)
            = gostt_decode_keyboard_packet rest)
        ∧ (encUnknown fld →
          gostt_decode_encrypted_data (encodeField fld ++ rest)
            = gostt_decode_encrypted_data rest))
    ∧ (∀ (n wt : Nat) (rest : List Nat), n < 2 ^ 32 → wt < 8 →
        wt ≠ 0 → wt ≠ 2 →
        gostt_decode_data_packet (varintBytes (n * 8 + wt) ++ rest) = none
        ∧ gostt_decode_keyboard_packet (varintBytes (n * 8 + wt) ++ rest) = none
        ∧ gostt_decode_encrypted_data (varintBytes (n * 8 + wt) ++ rest)
            = none) := by
  refine ⟨?_, ?_, ?_⟩
  · intro fs fs' hwf hnd hperm
    have hwf' : ∀ fld ∈ fs', fieldWF fld :=
      fun fld hm => hwf fld (hperm.mem_iff.mpr hm)
    have hinj : ∀ x ∈ fs, ∀ y ∈ fs, x ≠ y → wfNum x ≠ wfNum y :=
      fun x hx y hy hxy he => hxy (List.inj_on_of_nodup_map hnd hx hy he)
    refine ⟨?_, ?_, ?_⟩
    · unfold gostt_decode_data_packet
      rw [decodeRun_encFields_closed _ _ fs hwf,
        decodeRun_encFields_closed _ _ fs' hwf']
      refine hperm.foldl_eq' ?_ (some dataPacketInit)
      intro x hx y hy z
      by_cases hxy : x = y
      · subst hxy; rfl
      · exact dataStep_comm x y (hinj x hx y hy hxy) z
    · unfold gostt_decode_keyboard_packet
      rw [decodeRun_encFields_closed _ _ fs hwf,
        decodeRun_encFields_closed _ _ fs' hwf']
      refine hperm.foldl_eq' ?_ (some keyboardPacketInit)
      intro x hx y hy z
      by_cases hxy : x = y
      · subst hxy; rfl
      · exact kbdStep_comm x y (hinj x hx y hy hxy) z
    · unfold gostt_decode_encrypted_data
      rw [decodeRun_encFields_closed _ _ fs hwf,
        decodeRun_encFields_closed _ _ fs' hwf']
      refine hperm.foldl_eq' ?_ (some encryptedDataInit)
      intro x hx y hy z
      by_cases hxy : x = y
      · subst hxy; rfl
      · exact encStep_comm x y (hinj x hx y hy hxy) z
  · intro fld rest hwf
    refine ⟨?_, ?_, ?_⟩
    · intro hun
      unfold gostt_decode_data_packet
      rw [decodeRun_cons_field _ _ _ hwf rest dataPacketInit,
        dataApply_unknown _ _ hun]
      rfl
    · intro hun
      unfold gostt_decode_keyboard_packet
      rw [decodeRun_cons_field _ _ _ hwf rest keyboardPacketInit,
        kbdApply_unknown _ _ hun]
      rfl
    · intro hun
      unfold gostt_decode_encrypted_data
      rw [decodeRun_cons_field _ _ _ hwf rest encryptedDataInit,
        encApply_unknown _ _ hun]
      rfl
  · intro n wt rest hn hwt8 h0 h2
    exact ⟨decodeRun_bad_wiretype _ _ n wt hn hwt8 h0 h2 rest _,
      decodeRun_bad_wiretype _ _ n wt hn hwt8 h0 h2 rest _,
      decodeRun_bad_wiretype _ _ n wt hn hwt8 h0 h2 rest _⟩

/-- Witness for decoder_field_order_skip_and_wiretype: swapping a
sequence-number field and a payload field decodes the DataPacket
identically; an unknown varint field 9 before the hello keyboard vector
is skipped; a wire-type-5 tag for field 1 fails every decoder. -/
theorem decoder_field_order_skip_and_wiretype_witness :
    gostt_decode_data_packet
        (encFields [WireField.varintF 4 42, WireField.bytesF 3 [1, 2, 3]])
      = gostt_decode_data_packet
        (encFields [WireField.bytesF 3 [1, 2, 3], WireField.varintF 4 42])
    ∧ gostt_decode_keyboard_packet
        (encodeField (WireField.varintF 9 5) ++ kbdHelloVec)
      = gostt_decode_keyboard_packet kbdHelloVec
    ∧ gostt_decode_data_packet (varintBytes (1 * 8 + 5) ++ [0, 0]) = none :=
  ⟨(decoder_field_order_skip_and_wiretype.1
      [WireField.varintF 4 42, WireField.bytesF 3 [1, 2, 3]]
      [WireField.bytesF 3 [1, 2, 3], WireField.varintF 4 42]
      (by decide) (by decide) (by decide)).1,
   ((decoder_field_order_skip_and_wiretype.2.1
      (WireField.varintF 9 5) kbdHelloVec (by decide)).2.1 (by decide)),
   ((decoder_field_order_skip_and_wiretype.2.2 1 5 [0, 0]
      (by norm_num) (by norm_num) (by norm_num) (by norm_num)).1)⟩
